import Mathlib

/-!
Verification development for the Celestia frame renderer
(`src/celengine/render.cpp`), covering the depth partitioner, the
view-frustum clip-bound computation, the eclipse/shadow calculator, the
render-list builder, the star-field batcher's brightness-to-alpha mapping,
and the orbit cache.

Machine `float`/`double` arithmetic is embedded as exact rational
arithmetic (`ℚ`).  Calls into the excluded math library (`celmath`:
vector norms, point-to-ray distance, `Math<float>::clamp`) and into libm
(`sqrt`, `cos`) are modelled as explicitly supplied inputs or function
parameters; each such spot is documented at its definition.
-/

namespace Celestia

/-- `MaxFarNearRatio` from render.cpp: bound on the far/near plane ratio
used by the depth partitioner and the projection setup. -/
def MaxFarNearRatio : ℚ := 2000

/-- `MinNearPlaneDistance` from render.cpp: the near plane is never closer
than this distance (in km). -/
def MinNearPlaneDistance : ℚ := 1 / 10000

/-- The fields of `RenderListEntry` (render.cpp) that the visibility culler
and depth partitioner read and write.  `nearZ` and `farZ` are view-space
depths (negative in front of the camera, `farZ ≤ nearZ < 0` for a
well-formed entry).  `depthBucket` is unset (`none`) until the partitioner
assigns it; the C++ field is simply left uninitialized in that case. -/
structure RenderListEntry where
  nearZ : ℚ
  farZ : ℚ
  discSizeInPixels : ℚ
  depthBucket : Option ℕ := none
deriving Repr, DecidableEq

/-- State of the depth-partition loop in `Renderer::render` (render.cpp).
The C++ loop walks `renderList` in place with an index `firstCoalesced`
marking where the current bucket's write-back range begins; here the same
array is split at that index: `done` holds the entries before
`firstCoalesced` (never written again) and `bucket` holds the entries from
`firstCoalesced` up to the current position (the range the coalescing
write-back covers).  The final render list is `done ++ bucket`. -/
structure DepthPartState where
  done : List RenderListEntry
  bucket : List RenderListEntry
  nDepthBuckets : ℕ
  lastNear : ℚ
  lastFar : ℚ
deriving Repr, DecidableEq

/-- One iteration of the depth-partition loop in `Renderer::render`
(render.cpp): entries with disc size ≤ 1 pixel are passed over (left inside
the current write-back range); a > 1 pixel entry either starts a new bucket
(when no bucket exists yet or its near plane is at/beyond the previous
bucket's far plane, or when coalescing fails the ratio test) or is
coalesced into the current bucket, writing the widened `[nearest, farthest]
` range back over every entry of the range.  Faithful details: `lastNear`
/`lastFar` are NOT updated by a successful coalesce, and the assigned
bucket index is `nDepthBuckets - 1` after any increment. -/
def dpStep (maxRatio : ℚ) (st : DepthPartState) (e : RenderListEntry) :
    DepthPartState :=
  if e.discSizeInPixels > 1 then
    if st.nDepthBuckets = 1 ∨ e.nearZ ≤ st.lastFar then
      { done := st.done ++ st.bucket
        bucket := [{ e with depthBucket := some st.nDepthBuckets }]
        nDepthBuckets := st.nDepthBuckets + 1
        lastNear := e.nearZ
        lastFar := e.farZ }
    else
      let farthest := min st.lastFar e.farZ
      let nearest := max st.lastNear e.nearZ
      if farthest / nearest < maxRatio then
        { st with
            bucket :=
              st.bucket.map
                (fun x => { x with nearZ := nearest, farZ := farthest }) ++
              [{ e with nearZ := nearest, farZ := farthest,
                        depthBucket := some (st.nDepthBuckets - 1) }] }
      else
        { done := st.done ++ st.bucket
          bucket := [{ e with depthBucket := some st.nDepthBuckets }]
          nDepthBuckets := st.nDepthBuckets + 1
          lastNear := e.nearZ
          lastFar := e.farZ }
  else
    { st with bucket := st.bucket ++ [e] }

/-- The depth-partition loop of `Renderer::render` run over the sorted
render list, starting from `nDepthBuckets = 1` and `lastNear = lastFar = 0`
exactly as in the source. -/
def depthPartition (maxRatio : ℚ) (es : List RenderListEntry) :
    DepthPartState :=
  es.foldl (dpStep maxRatio) ⟨[], [], 1, 0, 0⟩

/-- The render list after the depth-partition loop (bucket ranges written
back, bucket indices assigned). -/
def partitionEntries (maxRatio : ℚ) (es : List RenderListEntry) :
    List RenderListEntry :=
  (depthPartition maxRatio es).done ++ (depthPartition maxRatio es).bucket

/-- The partitioner's final bucket count (`nDepthBuckets` in render.cpp);
the depth range [0,1] is split into this many slices of size
`1 / nDepthBuckets`. -/
def nDepthBucketsOf (maxRatio : ℚ) (es : List RenderListEntry) : ℕ :=
  (depthPartition maxRatio es).nDepthBuckets

/-- A pair of bucketed entries respects the depth ordering: if both are
mesh entries (disc > 1px) and `a`'s bucket index is lower (nearer) than
`b`'s, then every depth in `a`'s assigned range is nearer to the observer
than every depth in `b`'s range, i.e. `b.nearZ ≤ a.farZ` in (negative)
view-space depths. -/
def orderedPair (a b : RenderListEntry) : Bool :=
  match a.depthBucket, b.depthBucket with
  | some ia, some ib =>
      if a.discSizeInPixels > 1 ∧ b.discSizeInPixels > 1 ∧ ia < ib then
        decide (b.nearZ ≤ a.farZ)
      else
        true
  | _, _ => true

/-- The buckets of a processed render list are pairwise non-overlapping and
monotonically ordered: any two mesh entries in distinct buckets have
disjoint, correctly ordered depth ranges. -/
def bucketsOrdered (es : List RenderListEntry) : Prop :=
  ∀ a ∈ es, ∀ b ∈ es, orderedPair a b = true

instance (es : List RenderListEntry) : Decidable (bucketsOrdered es) := by
  unfold bucketsOrdered; infer_instance

/-- Every mesh entry's assigned bucket range satisfies the far/near ratio
bound: `farZ / nearZ ≤ maxRatio` (both depths are negative, so the rational
quotient equals the positive distance ratio far/near). -/
def bucketRatiosBounded (maxRatio : ℚ) (es : List RenderListEntry) : Prop :=
  ∀ e ∈ es, e.discSizeInPixels > 1 → e.farZ / e.nearZ ≤ maxRatio

instance (maxRatio : ℚ) (es : List RenderListEntry) :
    Decidable (bucketRatiosBounded maxRatio es) := by
  unfold bucketRatiosBounded; infer_instance

/-- A well-formed culled entry: view-space depths negative in front of the
camera with the far plane at or beyond the near plane. -/
def wellFormedEntry (e : RenderListEntry) : Prop :=
  e.farZ ≤ e.nearZ ∧ e.nearZ < 0

instance (e : RenderListEntry) : Decidable (wellFormedEntry e) := by
  unfold wellFormedEntry; infer_instance

/-- The mesh entries (disc size > 1 pixel) of a render list, the entries
the partition loop buckets. -/
def bigFilter (es : List RenderListEntry) : List RenderListEntry :=
  es.filter (fun e => decide (e.discSizeInPixels > 1))

/-- Depth separation between two consecutive mesh entries: the later
entry's near plane is at or beyond the earlier one's far plane (in
negative view-space depths), i.e. the two do not overlap in depth. -/
def depthR (a b : RenderListEntry) : Prop := b.nearZ ≤ a.farZ

instance (a b : RenderListEntry) : Decidable (depthR a b) := by
  unfold depthR; infer_instance

/-- The mesh entries (disc > 1px) of a render list are pairwise
depth-separated in order: each one's near plane is at or beyond the
previous one's far plane, the condition under which the partition loop
never needs to coalesce. -/
def bigSeparated (es : List RenderListEntry) : Prop :=
  (bigFilter es).Chain' depthR

instance (es : List RenderListEntry) : Decidable (bigSeparated es) := by
  unfold bigSeparated bigFilter; infer_instance

/-- Separation bookkeeping for the partition-loop induction: `lastBig` is
the most recent mesh entry processed (`none` before the first one); the
upcoming mesh entries of `rest` must continue the separation chain from
it. -/
def dpSepFrom (lastBig : Option RenderListEntry)
    (rest : List RenderListEntry) : Prop :=
  match lastBig with
  | none => (bigFilter rest).Chain' depthR
  | some l => List.Chain depthR l (bigFilter rest)

/-- Loop invariant of the depth-partition loop on separated input: the
processed entries are bucket-ordered; before the first mesh entry the
bucket counter is still 1 and nothing processed is a mesh entry; after it,
`lastFar` is the far plane of the most recent mesh entry `l`, every
processed mesh entry's far plane is at or beyond `lastFar`, and every
assigned bucket index is below the bucket counter. -/
def dpInv (st : DepthPartState) (lastBig : Option RenderListEntry) : Prop :=
  bucketsOrdered (st.done ++ st.bucket) ∧
  match lastBig with
  | none =>
      st.nDepthBuckets = 1 ∧
      ∀ x ∈ st.done ++ st.bucket, ¬ x.discSizeInPixels > 1
  | some l =>
      l.discSizeInPixels > 1 ∧ st.lastFar = l.farZ ∧
      2 ≤ st.nDepthBuckets ∧
      ∀ x ∈ st.done ++ st.bucket, x.discSizeInPixels > 1 →
        st.lastFar ≤ x.farZ ∧ ∀ i ∈ x.depthBucket, i < st.nDepthBuckets

/-- Geometric inputs to the per-entry clip-bound computation of the
visibility cull pass in `Renderer::render` (render.cpp): `d` is
`center.distanceFromOrigin()` (the celmath vector norm, supplied as an
input because celmath is outside this core), `centerZ` is `center.z`,
and `radius`, `oblateness`, `cloudHeight`, `convex` are the object
properties the pass resolves before computing the bounds. -/
structure CullGeom where
  d : ℚ
  centerZ : ℚ
  radius : ℚ
  oblateness : ℚ
  cloudHeight : ℚ
  convex : Bool
deriving Repr, DecidableEq

/-- The near/far clip-bound computation for a frustum-surviving entry in
`Renderer::render` (render.cpp).  `k` stands for
`cos(degToRad(fov/2)) * windowHeight / maxSpan`, a positive factor the
source computes with libm `cos`; `sqrtQ` stands for libm `sqrt` — both are
parameters because libm is outside this core, and every theorem using a
convex input constrains `sqrtQ` at the point it is applied.  The
non-convex branch clamps the ratio to `MaxFarNearRatio` by pulling in the
near plane; the convex branch tightens the far plane to 1.1 × the tangent
distance `sqrt(d² - eradius²)` (or `nearZ * 2` inside the bounding
sphere), then pushes it out for a low cloud layer — with no ratio
clamp. -/
def computeClipBounds (sqrtQ : ℚ → ℚ) (k : ℚ) (g : CullGeom) : ℚ × ℚ :=
  let nearZ0 := -(g.d - g.radius) * k
  let nearZ :=
    if nearZ0 > -MinNearPlaneDistance then -MinNearPlaneDistance else nearZ0
  if !g.convex then
    let farZ := g.centerZ - g.radius
    if farZ / nearZ > MaxFarNearRatio then (farZ / MaxFarNearRatio, farZ)
    else (nearZ, farZ)
  else
    let eradius := g.radius * (1 - g.oblateness)
    let farZ0 :=
      if g.d > eradius then -(sqrtQ (g.d ^ 2 - eradius ^ 2) * (11 / 10))
      else nearZ * 2
    let farZ :=
      if g.cloudHeight > 0 ∧ g.d < eradius + g.cloudHeight then
        farZ0 - sqrtQ ((eradius + g.cloudHeight) ^ 2 - eradius ^ 2)
      else farZ0
    (nearZ, farZ)

/-- The body classification enum (`Body::Classification`, body.h — its
values are listed in the spec's external-interface section). -/
inductive Classification where
  | Planet | Moon | Asteroid | Comet | Spacecraft | Invisible | Unknown
deriving Repr, DecidableEq

/-- The properties of a shadow caster / receiver that
`Renderer::testEclipse` (render.cpp) reads: radius, classification, and
whether the body uses a mesh model (`getModel() != InvalidResource`,
i.e. a non-ellipsoid shape). -/
structure EclipseBody where
  radius : ℚ
  classification : Classification
  hasMeshModel : Bool
deriving Repr, DecidableEq

/-- Modelled from the spec: the scalar geometry `Renderer::testEclipse`
obtains from the excluded celmath library, which is not under src.
`distToSun` is `posReceiver.distanceFromOrigin()`, `casterReceiverDist`
is `(posCaster - posReceiver).length()`, and `distAxis` is
`distance(posReceiver, Ray3d(posCaster, posCaster - origin))` — per the
spec, the perpendicular distance from the receiver's center to the shadow
cylinder's axis (the sun–caster line). -/
structure EclipseGeom where
  distToSun : ℚ
  casterReceiverDist : ℚ
  distAxis : ℚ
deriving Repr, DecidableEq

/-- An `EclipseShadow` record (render.h) as appended by
`Renderer::testEclipse`: the shadow-cone origin `dir = posCaster -
posReceiver` and the penumbra/umbra radii.  The unit `direction` field is
not modelled: it requires celmath vector normalization and no claim reads
it. -/
structure EclipseShadow where
  penumbraRadius : ℚ
  umbraRadius : ℚ
deriving Repr, DecidableEq

/-- `Renderer::testEclipse` (render.cpp): skip (returning `false`, list
untouched) unless the caster's radius is at least 1% of the receiver's,
the caster is not Invisible, and the caster has no mesh model; otherwise
build the shadow cylinder from the apparent sun and occluder radii and
append an `EclipseShadow` exactly when the receiver's center lies within
`receiver.radius + shadowRadius` of the shadow axis. -/
def testEclipse (receiver caster : EclipseBody) (sunRadius : ℚ)
    (g : EclipseGeom) (shadows : List EclipseShadow) :
    Bool × List EclipseShadow :=
  if caster.radius * 100 ≥ receiver.radius ∧
      caster.classification ≠ Classification.Invisible ∧
      caster.hasMeshModel = false then
    let appSunRadius := sunRadius / g.distToSun
    let distToCaster := g.casterReceiverDist - receiver.radius
    let appOccluderRadius := caster.radius / distToCaster
    let shadowRadius := (1 + appSunRadius / appOccluderRadius) * caster.radius
    let R := receiver.radius + shadowRadius
    if g.distAxis < R then
      (true, shadows ++
        [{ penumbraRadius := shadowRadius
           umbraRadius := caster.radius *
             (appOccluderRadius - appSunRadius) / appOccluderRadius }])
    else (false, shadows)
  else (false, shadows)

/-- The per-body attributes `Renderer::renderPlanetarySystem` (render.cpp)
reads.  `distanceFromObserver` stands for `(bodyPos - observerPos).length()`
(the positions come from the black-box Orbit Evaluator and the norm from
the excluded celmath library) and `appMag` for
`body->getApparentMagnitude(...)` (body.cpp, outside src) — both are
therefore carried as attributes of the visited body. -/
structure PSBodyData where
  radius : ℚ
  distanceFromObserver : ℚ
  appMag : ℚ
  classification : Classification
  extant : Bool
deriving Repr, DecidableEq

/-- A body together with its satellite system (`Body` /
`PlanetarySystem`): a planetary system is a tree. -/
inductive PSBody where
  | mk (data : PSBodyData) (satellites : List PSBody)

/-- The attribute record of a body. -/
def PSBody.data : PSBody → PSBodyData
  | .mk d _ => d

/-- The satellite system of a body (empty list for `NULL`). -/
def PSBody.satellites : PSBody → List PSBody
  | .mk _ s => s

/-- The fields of a `RenderListEntry` that
`Renderer::renderPlanetarySystem` fills in for a body (the vector-valued
`position`/`sun` fields are omitted: they are computed with celmath and no
claim reads them). -/
structure PSEntry where
  body : PSBodyData
  isCometTail : Bool
  radius : ℚ
  distance : ℚ
  discSizeInPixels : ℚ
  appMag : ℚ
deriving Repr, DecidableEq

/-- Disc size in pixels of a body as computed in
`Renderer::renderPlanetarySystem`:
`(body->getRadius() / distanceFromObserver) / pixelSize`. -/
def discSize (pixelSize : ℚ) (b : PSBodyData) : ℚ :=
  b.radius / b.distanceFromObserver / pixelSize

/-- The synthetic comet-tail disc radius from
`Renderer::renderPlanetarySystem` (deliberately oversized for
visibility). -/
def cometTailRadius : ℚ := 10000000

/-- `Renderer::renderPlanetarySystem` (render.cpp), restricted to its
render-list output (label emission touches only the label lists and is
omitted).  Per body, in source order: skip the body if not extant; add a
render-list entry when `discSize > 1 ∨ appMag < faintestPlanetMag` and the
body is not classified Invisible; for a comet with comet tails enabled,
add a synthetic tail entry when its oversized disc exceeds 1 pixel; and
recurse into the body's satellite system only when
`appMag < faintestPlanetMag`. -/
def renderPlanetarySystem (pixelSize faintestPlanetMag : ℚ)
    (showCometTails : Bool) : List PSBody → List PSEntry
  | [] => []
  | .mk d sats :: rest =>
      (if ¬d.extant then [] else
        (if (discSize pixelSize d > 1 ∨ d.appMag < faintestPlanetMag) ∧
            d.classification ≠ Classification.Invisible then
          [{ body := d, isCometTail := false, radius := d.radius
             distance := d.distanceFromObserver
             discSizeInPixels := discSize pixelSize d, appMag := d.appMag }]
        else []) ++
        (if d.classification = Classification.Comet ∧ showCometTails = true ∧
            cometTailRadius / d.distanceFromObserver / pixelSize > 1 then
          [{ body := d, isCometTail := true, radius := cometTailRadius
             distance := d.distanceFromObserver
             discSizeInPixels :=
               cometTailRadius / d.distanceFromObserver / pixelSize
             appMag := d.appMag }]
        else []) ++
        (if d.appMag < faintestPlanetMag then
          renderPlanetarySystem pixelSize faintestPlanetMag showCometTails
            sats
        else [])) ++
      renderPlanetarySystem pixelSize faintestPlanetMag showCometTails rest

/-- `Math<float>::clamp` (excluded celmath mathlib.h) as used on star
alphas; it agrees with the inline clamp in the `useDiscs` branch of
`StarRenderer::process` (render.cpp): values below 0 become 0, values
above 1 become 1. -/
def clamp01 (x : ℚ) : ℚ :=
  if x < 0 then 0 else if x > 1 then 1 else x

/-- The brightness-to-alpha mapping of the star-field batcher
(`StarRenderer::process`, render.cpp) for a billboard star
(disc ≤ 1 pixel): `alpha = (faintestMag - appMag) * brightnessScale +
brightnessBias`, clamped to [0,1] (both the `useDiscs` branch and the
`clamp(alpha)` call clamp this way). -/
def starBillboardAlpha (faintestMag appMag brightnessScale
    brightnessBias : ℚ) : ℚ :=
  clamp01 ((faintestMag - appMag) * brightnessScale + brightnessBias)

/-- One `(t, position)` pair produced by the Orbit Evaluator's `sample`
sink (class `OrbitSampler`, render.cpp). -/
structure OrbitSample where
  t : ℚ
  pos : ℚ × ℚ × ℚ
deriving Repr, DecidableEq

/-- A `CachedOrbit` (render.h): owning body reference (`none` when the
slot is free for reuse), the sampled trajectory, and the per-frame keep
flag. -/
structure CachedOrbit where
  body : Option ℕ
  keep : Bool
  trajectory : List OrbitSample
deriving Repr, DecidableEq

/-- The per-body orbit properties `Renderer::renderOrbit` queries, and the
black-box Orbit Evaluator interface (spec §6): `sample b startTime period
nSamples` is the sequence of pairs the evaluator feeds to the sink.
Bodies are identified by an index `ℕ`. -/
structure OrbitModel where
  isPeriodic : ℕ → Bool
  period : ℕ → ℚ
  validBegin : ℕ → ℚ
  validEnd : ℕ → ℚ
  sample : ℕ → ℚ → ℚ → ℤ → List OrbitSample

/-- C `(int)` cast of a nonnegative `double` as used for
`nSamples = (int)(getPeriod() * 100.0)` (truncation; the periods involved
are nonnegative). -/
def cTruncToInt (q : ℚ) : ℤ := q.num / (q.den : ℤ)

/-- First pass of `Renderer::renderOrbit`'s cache lookup: find the first
cache entry owned by `b`, set its keep flag, and return the updated cache
together with the entry's trajectory; `none` when `b` has no entry. -/
def findMark (b : ℕ) : List CachedOrbit →
    Option (List CachedOrbit × List OrbitSample)
  | [] => none
  | e :: rest =>
      if e.body = some b then some ({ e with keep := true } :: rest,
        e.trajectory)
      else (findMark b rest).map (fun p => (e :: p.1, p.2))

/-- Second pass of `Renderer::renderOrbit`'s cache lookup: overwrite the
first free slot (`body == NULL`) with the freshly sampled orbit; `none`
when every slot is in use (the caller then appends a new entry). -/
def replaceFirstFree (o : CachedOrbit) : List CachedOrbit →
    Option (List CachedOrbit)
  | [] => none
  | e :: rest =>
      if e.body = none then some (o :: rest)
      else (replaceFirstFree o rest).map (e :: ·)

/-- The sampling parameters `(startTime, nSamples)` chosen by
`Renderer::renderOrbit` on a cache miss: periodic orbits sample from the
current time with `detailOptions.orbitPathSamplePoints` points; aperiodic
orbits with a nonempty valid range sample from the range's begin with
`(int)(getPeriod() * 100)` points clamped to [100, 1000]. -/
def sampleParams (om : OrbitModel) (orbitPathSamplePoints : ℤ) (b : ℕ)
    (t : ℚ) : ℚ × ℤ :=
  if om.isPeriodic b = false ∧ om.validBegin b ≠ om.validEnd b then
    (om.validBegin b, max (min (cTruncToInt (om.period b * 100)) 1000) 100)
  else (t, orbitPathSamplePoints)

/-- The cache entry `Renderer::renderOrbit` builds on a cache miss: owned
by `b`, marked kept, holding the freshly sampled trajectory. -/
def freshOrbit (om : OrbitModel) (orbitPathSamplePoints : ℤ) (b : ℕ)
    (t : ℚ) : CachedOrbit :=
  { body := some b
    keep := true
    trajectory := om.sample b (sampleParams om orbitPathSamplePoints b t).1
      (om.period b) (sampleParams om orbitPathSamplePoints b t).2 }

/-- `Renderer::renderOrbit` (render.cpp) restricted to its cache effect:
returns the trajectory that is drawn, the updated orbit cache, and whether
the orbit evaluator's `sample` method was invoked (`true` = resampled).
On a cache hit the entry is marked kept and its trajectory reused; on a
miss the orbit is sampled and stored in the first free slot, or appended
when no slot is free. -/
def renderOrbit (om : OrbitModel) (orbitPathSamplePoints : ℤ) (b : ℕ)
    (t : ℚ) (cache : List CachedOrbit) :
    List OrbitSample × List CachedOrbit × Bool :=
  match findMark b cache with
  | some (cache', traj) => (traj, cache', false)
  | none =>
      match replaceFirstFree (freshOrbit om orbitPathSamplePoints b t)
          cache with
      | some cache' =>
          ((freshOrbit om orbitPathSamplePoints b t).trajectory, cache',
            true)
      | none =>
          ((freshOrbit om orbitPathSamplePoints b t).trajectory,
            cache ++ [freshOrbit om orbitPathSamplePoints b t], true)

/-- An orbit-cache entry owned by body `b` and marked as used this frame
(the state `Renderer::renderOrbit` leaves `b`'s entry in). -/
def hasKeptEntry (b : ℕ) (cache : List CachedOrbit) : Prop :=
  ∃ e ∈ cache, e.body = some b ∧ e.keep = true

/-- The keep-flag reset at the start of the orbit-rendering block of
`Renderer::render` (render.cpp): clear every cache entry's keep flag
before any orbit of the frame is drawn. -/
def resetKeepFlags (cache : List CachedOrbit) : List CachedOrbit :=
  cache.map (fun e => { e with keep := false })

/-- The reclaim pass at the end of the orbit-rendering block of
`Renderer::render`: entries not used this frame (`keep == false`) get
their body reference cleared so the slot can be reused. -/
def reclaimUnused (cache : List CachedOrbit) : List CachedOrbit :=
  cache.map (fun e => if e.keep then e else { e with body := none })

/-- One frame of the orbit-cache protocol in `Renderer::render`: reset all
keep flags, draw the frame's orbits (each call `renderOrbit` threading the
cache), then reclaim the unused entries. -/
def renderFrameOrbits (om : OrbitModel) (orbitPathSamplePoints : ℤ)
    (t : ℚ) (bodies : List ℕ) (cache : List CachedOrbit) :
    List CachedOrbit :=
  reclaimUnused
    (bodies.foldl
      (fun c b => (renderOrbit om orbitPathSamplePoints b t c).2.1)
      (resetKeepFlags cache))

/-! ## Theorems -/

/-- C6 (counterexample): depth-partitioning the three entries with
(near, far) = (10,20), (25,40), (100,500) under a far/near ratio limit of
10 does NOT yield 3 buckets: the bucket counter starts at 1 and the first
mesh entry already increments it, so the partitioner ends with
`nDepthBuckets = 4`. -/
theorem depthPartition_scenario4_counterexample :
    nDepthBucketsOf 10
      [⟨-10, -20, 2, none⟩, ⟨-25, -40, 2, none⟩, ⟨-100, -500, 2, none⟩] ≠
      3 := by
  norm_num [nDepthBucketsOf, depthPartition, dpStep, min_def, max_def]

/-- C6 (amended): depth-partitioning the three entries with (near, far) =
(10,20), (25,40), (100,500) under a far/near ratio limit of 10 assigns
each entry its own bucket — the distinct indices 1, 2 and 3, with ranges
untouched — and the partitioner's total bucket count is 4 (bucket 0 is
left for sub-pixel objects nearer than the nearest mesh entry). -/
theorem depthPartition_scenario4_buckets :
    partitionEntries 10
        [⟨-10, -20, 2, none⟩, ⟨-25, -40, 2, none⟩, ⟨-100, -500, 2, none⟩] =
      [⟨-10, -20, 2, some 1⟩, ⟨-25, -40, 2, some 2⟩,
        ⟨-100, -500, 2, some 3⟩] ∧
    nDepthBucketsOf 10
        [⟨-10, -20, 2, none⟩, ⟨-25, -40, 2, none⟩, ⟨-100, -500, 2, none⟩] =
      4 := by
  constructor <;>
    norm_num [partitionEntries, nDepthBucketsOf, depthPartition, dpStep,
      min_def, max_def]

/-- C1 (counterexample): the coalescing loop compares against the bucket's
original far plane (`lastFar` is not updated by a successful coalesce), so
buckets can overlap.  Entries (10,20), (15,50), (30,60) — all well-formed,
each with far/near ratio at most `MaxFarNearRatio` — end with entries 1,2
coalesced into bucket 1 covering [10,50] and entry 3 alone in bucket 2
covering [30,60], two overlapping ranges. -/
theorem depthBuckets_overlap_counterexample :
    ¬ bucketsOrdered
        (partitionEntries MaxFarNearRatio
          [⟨-10, -20, 2, none⟩, ⟨-15, -50, 2, none⟩,
            ⟨-30, -60, 2, none⟩]) := by
  have hL : partitionEntries MaxFarNearRatio
      [⟨-10, -20, 2, none⟩, ⟨-15, -50, 2, none⟩, ⟨-30, -60, 2, none⟩] =
      [⟨-10, -50, 2, some 1⟩, ⟨-10, -50, 2, some 1⟩,
        ⟨-30, -60, 2, some 2⟩] := by
    norm_num [partitionEntries, depthPartition, dpStep, MaxFarNearRatio,
      min_def, max_def]
  rw [hL]
  intro h
  have h2 := h ⟨-10, -50, 2, some 1⟩ (by simp) ⟨-30, -60, 2, some 2⟩
    (by simp)
  norm_num [orderedPair] at h2

/-- C2 (counterexample): the convex branch of the clip-bound computation
applies no far/near ratio clamp, so a convex body whose surface is very
close to the observer (here a sphere of radius 15999999 km viewed from
2 km above its surface, with view factor k = 1/2 and the libm square root
pinned exactly at 8000) yields an entry with ratio 8800, and the depth
partitioner puts it in a bucket exceeding `MaxFarNearRatio = 2000`. -/
theorem bucketRatio_exceeds_bound_counterexample :
    (8000 : ℚ) ^ 2 =
        (16000001 : ℚ) ^ 2 - ((15999999 : ℚ) * (1 - 0)) ^ 2 ∧
    (0 : ℚ) ≤ 8000 ∧
    computeClipBounds (fun _ => 8000) (1 / 2)
        ⟨16000001, -16000001, 15999999, 0, 0, true⟩ = (-1, -8800) ∧
    ¬ bucketRatiosBounded MaxFarNearRatio
        (partitionEntries MaxFarNearRatio [⟨-1, -8800, 2, none⟩]) := by
  refine ⟨by norm_num, by norm_num,
    by norm_num [computeClipBounds, MinNearPlaneDistance, MaxFarNearRatio],
    ?_⟩
  have hL : partitionEntries MaxFarNearRatio [⟨-1, -8800, 2, none⟩] =
      [⟨-1, -8800, 2, some 1⟩] := by
    norm_num [partitionEntries, depthPartition, dpStep]
  rw [hL]
  intro h
  have h2 := h ⟨-1, -8800, 2, some 1⟩ (by simp) (by norm_num)
  norm_num [MaxFarNearRatio] at h2

/-- C3: `testEclipse` returns `false` and leaves the eclipse-shadow list
unchanged whenever the caster's radius times 100 is below the receiver's
radius, the caster is classified Invisible, or the caster uses a mesh
(non-ellipsoid) model. -/
theorem testEclipse_skips_small_invisible_or_mesh_caster
    (receiver caster : EclipseBody) (sunRadius : ℚ) (g : EclipseGeom)
    (shadows : List EclipseShadow)
    (h : caster.radius * 100 < receiver.radius ∨
         caster.classification = Classification.Invisible ∨
         caster.hasMeshModel = true) :
    testEclipse receiver caster sunRadius g shadows = (false, shadows) := by
  have hneg : ¬ (caster.radius * 100 ≥ receiver.radius ∧
      caster.classification ≠ Classification.Invisible ∧
      caster.hasMeshModel = false) := by
    rintro ⟨h1, h2, h3⟩
    rcases h with h | h | h
    · exact absurd h1 (not_le.mpr h)
    · exact h2 h
    · rw [h3] at h; exact Bool.false_ne_true h
  unfold testEclipse
  rw [if_neg hneg]

/-- Witness for C3: a caster of radius 1 against a receiver of radius 300
(1% gate fails) is skipped with the shadow list untouched. -/
theorem testEclipse_skips_small_caster_witness :
    ((1 : ℚ) * 100 < 300 ∨
      Classification.Planet = Classification.Invisible ∨ false = true) ∧
    testEclipse ⟨300, Classification.Planet, false⟩
        ⟨1, Classification.Planet, false⟩ 100 ⟨1000, 101, 0⟩ [] =
      (false, []) :=
  ⟨Or.inl (by norm_num),
    testEclipse_skips_small_invisible_or_mesh_caster _ _ _ _ _
      (Or.inl (by norm_num))⟩

/-- C4 (counterexample): a caster 50 times the receiver's radius passes
the size gate — the gate only rejects casters smaller than 1% of the
receiver — and, on the shadow axis at caster/receiver distance 101, DOES
produce an EclipseShadow record, contrary to the claim that only the
200-times case does. -/
theorem testEclipse_fifty_times_caster_counterexample :
    (testEclipse ⟨1, Classification.Planet, false⟩
        ⟨50, Classification.Moon, false⟩ 100 ⟨1000, 101, 0⟩ []).1 = true ∧
    (testEclipse ⟨1, Classification.Planet, false⟩
        ⟨50, Classification.Moon, false⟩ 100 ⟨1000, 101, 0⟩ []).2 ≠ [] := by
  have h : testEclipse ⟨1, Classification.Planet, false⟩
      ⟨50, Classification.Moon, false⟩ 100 ⟨1000, 101, 0⟩ [] =
      (true, [⟨60, 40⟩]) := by
    norm_num [testEclipse]
    decide
  rw [h]
  exact ⟨rfl, by simp⟩

/-- C4 (amended): at the same caster-to-receiver distance (101, receiver
radius 1, on the shadow axis, sun of radius 100 at distance 1000), BOTH
the 200-times and the 50-times caster pass the size gate — which only
rejects casters with radius below 1% of the receiver's — and both produce
an EclipseShadow record. -/
theorem testEclipse_both_large_casters_shadow :
    testEclipse ⟨1, Classification.Planet, false⟩
        ⟨200, Classification.Moon, false⟩ 100 ⟨1000, 101, 0⟩ [] =
      (true, [⟨210, 190⟩]) ∧
    testEclipse ⟨1, Classification.Planet, false⟩
        ⟨50, Classification.Moon, false⟩ 100 ⟨1000, 101, 0⟩ [] =
      (true, [⟨60, 40⟩]) := by
  constructor <;> (norm_num [testEclipse]; decide)

/-- Monotonicity of the [0,1] clamp used on star alphas. -/
theorem clamp01_mono {x y : ℚ} (h : x ≤ y) : clamp01 x ≤ clamp01 y := by
  unfold clamp01
  split_ifs <;> linarith

/-- C9: with shared faintest magnitude, saturation magnitude, positive
brightness scale and brightness bias, a star A brighter (lower apparent
magnitude) than a star B gets a billboard alpha at least B's. -/
theorem starAlpha_monotone_in_magnitude
    (faintestMag appMagA appMagB brightnessScale brightnessBias : ℚ)
    (hscale : 0 < brightnessScale) (hmag : appMagA < appMagB) :
    starBillboardAlpha faintestMag appMagB brightnessScale brightnessBias ≤
      starBillboardAlpha faintestMag appMagA brightnessScale
        brightnessBias := by
  unfold starBillboardAlpha
  apply clamp01_mono
  nlinarith

/-- Witness for C9: stars of magnitudes 1 and 2 under faintest magnitude 6,
scale 1/10, bias 0. -/
theorem starAlpha_monotone_in_magnitude_witness :
    (0 : ℚ) < 1 / 10 ∧ (1 : ℚ) < 2 ∧
    starBillboardAlpha 6 2 (1 / 10) 0 ≤ starBillboardAlpha 6 1 (1 / 10) 0 :=
  ⟨by norm_num, by norm_num,
    starAlpha_monotone_in_magnitude 6 1 2 (1 / 10) 0 (by norm_num)
      (by norm_num)⟩

/-- C5 (counterexample): the body of the spec's Scenario 1 (radius 6371,
distance 1,000,000 km, pixel angle 1e-6 rad/px) has disc size 6371 px —
not 6.371 px as the spec computes — and, when classified Invisible, is
added to the render list by neither the disc-size nor the magnitude
branch even though its disc size exceeds 1 pixel. -/
theorem renderList_invisible_bright_body_counterexample :
    discSize (1 / 1000000)
        ⟨6371, 1000000, 30, Classification.Invisible, true⟩ = 6371 ∧
    discSize (1 / 1000000)
        ⟨6371, 1000000, 30, Classification.Invisible, true⟩ ≠ 6371 / 1000 ∧
    discSize (1 / 1000000)
        ⟨6371, 1000000, 30, Classification.Invisible, true⟩ > 1 ∧
    renderPlanetarySystem (1 / 1000000) 0 false
        [PSBody.mk ⟨6371, 1000000, 30, Classification.Invisible, true⟩ []] =
      [] := by
  refine ⟨by norm_num [discSize], by norm_num [discSize],
    by norm_num [discSize], ?_⟩
  simp [renderPlanetarySystem, discSize, cometTailRadius]

/-- C5 (amended): for every extant body visited by the render-list
builder that is not classified Invisible, an entry (tagged as a mesh
body, not a comet tail) is added to the render list whenever its disc
size `radius / (distance × pixel-angle-per-pixel)` exceeds 1 pixel or its
apparent magnitude is brighter (lower) than the faintest-visible-planet
threshold. -/
theorem renderList_includes_visible_body
    (pixelSize faintestPlanetMag : ℚ) (showCometTails : Bool)
    (bodies : List PSBody) (b : PSBodyData) (sats : List PSBody)
    (hmem : PSBody.mk b sats ∈ bodies)
    (hext : b.extant = true)
    (hinv : b.classification ≠ Classification.Invisible)
    (hcond : discSize pixelSize b > 1 ∨ b.appMag < faintestPlanetMag) :
    ∃ e ∈ renderPlanetarySystem pixelSize faintestPlanetMag showCometTails
      bodies, e.body = b ∧ e.isCometTail = false := by
  induction bodies with
  | nil => simp at hmem
  | cons hd rest ih =>
      obtain ⟨d, s⟩ := hd
      rcases List.mem_cons.mp hmem with heq | hmem2
      · injection heq with h1 h2
        subst h1
        refine ⟨{ body := b, isCometTail := false, radius := b.radius
                  distance := b.distanceFromObserver
                  discSizeInPixels := discSize pixelSize b
                  appMag := b.appMag }, ?_, rfl, rfl⟩
        rw [renderPlanetarySystem]
        rw [if_neg (by simp [hext]), if_pos ⟨hcond, hinv⟩]
        simp
      · obtain ⟨e, he, hprop⟩ := ih hmem2
        refine ⟨e, ?_, hprop⟩
        rw [renderPlanetarySystem]
        exact List.mem_append_right _ he

/-- Witness for C5: the Scenario 1 body (radius 6371, distance 1,000,000
km, pixel angle 1e-6 rad/px — disc size 6371 px), classified Planet, gets
a render-list entry. -/
theorem renderList_includes_visible_body_witness :
    PSBody.mk ⟨6371, 1000000, 30, Classification.Planet, true⟩ [] ∈
      [PSBody.mk ⟨6371, 1000000, 30, Classification.Planet, true⟩ []] ∧
    discSize (1 / 1000000)
        ⟨6371, 1000000, 30, Classification.Planet, true⟩ > 1 ∧
    ∃ e ∈ renderPlanetarySystem (1 / 1000000) 0 false
        [PSBody.mk ⟨6371, 1000000, 30, Classification.Planet, true⟩ []],
      e.body = ⟨6371, 1000000, 30, Classification.Planet, true⟩ ∧
      e.isCometTail = false :=
  ⟨List.mem_singleton.mpr rfl, by norm_num [discSize],
    renderList_includes_visible_body (1 / 1000000) 0 false _ _ []
      (List.mem_singleton.mpr rfl) rfl (by decide)
      (Or.inl (by norm_num [discSize]))⟩

/-- C10: the render-list builder never adds an entry (mesh or comet tail)
for a body classified Invisible, regardless of its disc size or apparent
magnitude. -/
theorem renderList_never_contains_invisible
    (pixelSize faintestPlanetMag : ℚ) (showCometTails : Bool)
    (bodies : List PSBody) :
    ∀ e ∈ renderPlanetarySystem pixelSize faintestPlanetMag showCometTails
      bodies, e.body.classification ≠ Classification.Invisible := by
  induction bodies using
    renderPlanetarySystem.induct pixelSize faintestPlanetMag showCometTails
    with
  | case1 => intro e he; simp [renderPlanetarySystem] at he
  | case2 d sats rest ih1 ih2 =>
      intro e he
      rw [renderPlanetarySystem] at he
      rcases List.mem_append.mp he with he1 | he2
      · split at he1
        · simp at he1
        · rcases List.mem_append.mp he1 with hm | hm2
          · rcases List.mem_append.mp hm with ha | hb
            · split at ha
              · next hca =>
                  simp only [List.mem_singleton] at ha
                  subst ha
                  exact hca.2
              · simp at ha
            · split at hb
              · next hcb =>
                  simp only [List.mem_singleton] at hb
                  subst hb
                  rw [hcb.1]
                  decide
              · simp at hb
          · split at hm2
            · exact ih1 e hm2
            · simp at hm2
      · exact ih2 e he2

/-- Witness for C10: the entry produced for a Planet body is (as the
theorem guarantees for every entry) not for an Invisible body. -/
theorem renderList_never_contains_invisible_witness :
    (⟨⟨6371, 1000000, 30, Classification.Planet, true⟩, false, 6371,
        1000000, 6371, 30⟩ : PSEntry) ∈
      renderPlanetarySystem (1 / 1000000) 0 false
        [PSBody.mk ⟨6371, 1000000, 30, Classification.Planet, true⟩ []] ∧
    (⟨⟨6371, 1000000, 30, Classification.Planet, true⟩, false, 6371,
        1000000, 6371, 30⟩ : PSEntry).body.classification ≠
      Classification.Invisible := by
  have hmem : (⟨⟨6371, 1000000, 30, Classification.Planet, true⟩, false,
      6371, 1000000, 6371, 30⟩ : PSEntry) ∈
      renderPlanetarySystem (1 / 1000000) 0 false
        [PSBody.mk ⟨6371, 1000000, 30, Classification.Planet, true⟩ []] := by
    rw [renderPlanetarySystem]
    norm_num [renderPlanetarySystem, discSize, cometTailRadius]
    decide
  exact ⟨hmem,
    renderList_never_contains_invisible (1 / 1000000) 0 false _ _ hmem⟩

/-- Marking an already-marked cache entry changes nothing. -/
theorem keep_update_self {o : CachedOrbit} (h : o.keep = true) :
    ({ o with keep := true } : CachedOrbit) = o := by
  cases o; simp_all

/-- Looking a body up again right after a successful lookup finds the same
entry, returns the same trajectory, and leaves the cache unchanged. -/
theorem findMark_self {b : ℕ} :
    ∀ {cache c : List CachedOrbit} {tr : List OrbitSample},
      findMark b cache = some (c, tr) → findMark b c = some (c, tr) := by
  intro cache
  induction cache with
  | nil => intro c tr h; simp [findMark] at h
  | cons e rest ih =>
      intro c tr h
      rw [findMark] at h
      by_cases hb : e.body = some b
      · rw [if_pos hb] at h
        simp only [Option.some.injEq, Prod.mk.injEq] at h
        obtain ⟨hc, htr⟩ := h
        subst hc; subst htr
        rw [findMark, if_pos hb]
      · rw [if_neg hb] at h
        cases hr : findMark b rest with
        | none => rw [hr] at h; simp at h
        | some p =>
            obtain ⟨p1, p2⟩ := p
            rw [hr] at h
            simp only [Option.map_some', Option.some.injEq,
              Prod.mk.injEq] at h
            obtain ⟨hc, htr⟩ := h
            subst hc; subst htr
            have ihp := ih hr
            rw [findMark, if_neg hb, ihp]
            simp

/-- After a cache miss fills the first free slot with an entry owned by
`b` and marked kept, looking `b` up finds that entry and leaves the cache
unchanged. -/
theorem findMark_replaceFirstFree {b : ℕ} {o : CachedOrbit}
    (hbody : o.body = some b) (hkeep : o.keep = true) :
    ∀ {cache c : List CachedOrbit}, findMark b cache = none →
      replaceFirstFree o cache = some c →
      findMark b c = some (c, o.trajectory) := by
  intro cache
  induction cache with
  | nil => intro c h h2; simp [replaceFirstFree] at h2
  | cons e rest ih =>
      intro c h h2
      rw [findMark] at h
      by_cases hb : e.body = some b
      · rw [if_pos hb] at h; simp at h
      · rw [if_neg hb] at h
        have hrest : findMark b rest = none := by
          cases hr : findMark b rest with
          | none => rfl
          | some p => rw [hr] at h; simp at h
        rw [replaceFirstFree] at h2
        by_cases hfree : e.body = none
        · rw [if_pos hfree] at h2
          simp only [Option.some.injEq] at h2
          subst h2
          rw [findMark, if_pos hbody, keep_update_self hkeep]
        · rw [if_neg hfree] at h2
          cases hr2 : replaceFirstFree o rest with
          | none => rw [hr2] at h2; simp at h2
          | some r =>
              rw [hr2] at h2
              simp only [Option.map_some', Option.some.injEq] at h2
              subst h2
              rw [findMark, if_neg hb, ih hrest hr2]
              simp

/-- After a cache miss appends an entry owned by `b` and marked kept,
looking `b` up finds that entry and leaves the cache unchanged. -/
theorem findMark_append {b : ℕ} {o : CachedOrbit}
    (hbody : o.body = some b) (hkeep : o.keep = true) :
    ∀ {cache : List CachedOrbit}, findMark b cache = none →
      findMark b (cache ++ [o]) = some (cache ++ [o], o.trajectory) := by
  intro cache
  induction cache with
  | nil =>
      intro _
      simp only [List.nil_append, findMark, if_pos hbody,
        keep_update_self hkeep]
  | cons e rest ih =>
      intro h
      rw [findMark] at h
      by_cases hb : e.body = some b
      · rw [if_pos hb] at h; simp at h
      · rw [if_neg hb] at h
        have hrest : findMark b rest = none := by
          cases hr : findMark b rest with
          | none => rfl
          | some p => rw [hr] at h; simp at h
        rw [List.cons_append, findMark, if_neg hb, ih hrest]
        simp

/-- C7: calling `renderOrbit` a second time for the same body in the same
frame returns the identical cached sample sequence, performs no resampling
(the sampled flag is `false`), and leaves the cache exactly as the first
call left it. -/
theorem renderOrbit_cache_idempotent (om : OrbitModel) (n : ℤ) (b : ℕ)
    (t : ℚ) (cache : List CachedOrbit) :
    renderOrbit om n b t (renderOrbit om n b t cache).2.1 =
      ((renderOrbit om n b t cache).1,
        (renderOrbit om n b t cache).2.1, false) := by
  rcases h : findMark b cache with _ | ⟨c1, tr⟩
  · rcases h2 : replaceFirstFree (freshOrbit om n b t) cache with _ | c1
    · have h3 := findMark_append (b := b) (o := freshOrbit om n b t) rfl
        rfl h
      simp only [renderOrbit, h, h2, h3]
    · have h3 := findMark_replaceFirstFree (b := b)
        (o := freshOrbit om n b t) rfl rfl h h2
      simp only [renderOrbit, h, h2, h3]
  · have h2 := findMark_self h
    simp only [renderOrbit, h, h2]

/-- A successful lookup leaves the cache with a kept entry for the body. -/
theorem findMark_some_kept {b : ℕ} :
    ∀ {cache c : List CachedOrbit} {tr : List OrbitSample},
      findMark b cache = some (c, tr) → hasKeptEntry b c := by
  intro cache
  induction cache with
  | nil => intro c tr h; simp [findMark] at h
  | cons e rest ih =>
      intro c tr h
      rw [findMark] at h
      by_cases hb : e.body = some b
      · rw [if_pos hb] at h
        simp only [Option.some.injEq, Prod.mk.injEq] at h
        obtain ⟨hc, _⟩ := h
        subst hc
        exact ⟨{ e with keep := true }, List.mem_cons_self _ _, hb, rfl⟩
      · rw [if_neg hb] at h
        cases hr : findMark b rest with
        | none => rw [hr] at h; simp at h
        | some p =>
            obtain ⟨p1, p2⟩ := p
            rw [hr] at h
            simp only [Option.map_some', Option.some.injEq,
              Prod.mk.injEq] at h
            obtain ⟨hc, _⟩ := h
            subst hc
            obtain ⟨x, hx, hprop⟩ := ih hr
            exact ⟨x, List.mem_cons_of_mem _ hx, hprop⟩

/-- The entry written into a reused slot is in the resulting cache. -/
theorem replaceFirstFree_mem {o : CachedOrbit} :
    ∀ {cache c : List CachedOrbit}, replaceFirstFree o cache = some c →
      o ∈ c := by
  intro cache
  induction cache with
  | nil => intro c h; simp [replaceFirstFree] at h
  | cons e rest ih =>
      intro c h
      rw [replaceFirstFree] at h
      by_cases hfree : e.body = none
      · rw [if_pos hfree] at h
        simp only [Option.some.injEq] at h
        subst h
        exact List.mem_cons_self _ _
      · rw [if_neg hfree] at h
        cases hr : replaceFirstFree o rest with
        | none => rw [hr] at h; simp at h
        | some r =>
            rw [hr] at h
            simp only [Option.map_some', Option.some.injEq] at h
            subst h
            exact List.mem_cons_of_mem _ (ih hr)

/-- After `renderOrbit` for body `b`, the cache holds a kept entry owned
by `b`. -/
theorem renderOrbit_kept (om : OrbitModel) (n : ℤ) (b : ℕ) (t : ℚ)
    (cache : List CachedOrbit) :
    hasKeptEntry b (renderOrbit om n b t cache).2.1 := by
  rcases h : findMark b cache with _ | ⟨c1, tr⟩
  · rcases h2 : replaceFirstFree (freshOrbit om n b t) cache with _ | c1
    · simp only [renderOrbit, h, h2]
      exact ⟨freshOrbit om n b t, List.mem_append_right _
        (List.mem_singleton.mpr rfl), rfl, rfl⟩
    · simp only [renderOrbit, h, h2]
      exact ⟨freshOrbit om n b t, replaceFirstFree_mem h2, rfl, rfl⟩
  · simp only [renderOrbit, h]
    exact findMark_some_kept h

/-- A lookup for any body never clears another body's kept entry. -/
theorem findMark_preserves_kept {b b' : ℕ} :
    ∀ {cache c : List CachedOrbit} {tr : List OrbitSample},
      hasKeptEntry b cache → findMark b' cache = some (c, tr) →
      hasKeptEntry b c := by
  intro cache
  induction cache with
  | nil => intro c tr h hm; simp [findMark] at hm
  | cons e rest ih =>
      intro c tr hk hm
      rw [findMark] at hm
      by_cases hb : e.body = some b'
      · rw [if_pos hb] at hm
        simp only [Option.some.injEq, Prod.mk.injEq] at hm
        obtain ⟨hc, _⟩ := hm
        subst hc
        obtain ⟨x, hx, hxb, hxk⟩ := hk
        rcases List.mem_cons.mp hx with hxe | hxr
        · subst hxe
          exact ⟨{ x with keep := true }, List.mem_cons_self _ _, hxb, rfl⟩
        · exact ⟨x, List.mem_cons_of_mem _ hxr, hxb, hxk⟩
      · rw [if_neg hb] at hm
        cases hr : findMark b' rest with
        | none => rw [hr] at hm; simp at hm
        | some p =>
            obtain ⟨p1, p2⟩ := p
            rw [hr] at hm
            simp only [Option.map_some', Option.some.injEq,
              Prod.mk.injEq] at hm
            obtain ⟨hc, _⟩ := hm
            subst hc
            obtain ⟨x, hx, hxb, hxk⟩ := hk
            rcases List.mem_cons.mp hx with hxe | hxr
            · subst hxe
              exact ⟨x, List.mem_cons_self _ _, hxb, hxk⟩
            · obtain ⟨y, hy, hyp⟩ := ih ⟨x, hxr, hxb, hxk⟩ hr
              exact ⟨y, List.mem_cons_of_mem _ hy, hyp⟩

/-- Slot reuse only overwrites free slots, so it never clears a kept
entry. -/
theorem replaceFirstFree_preserves_kept {b : ℕ} {o : CachedOrbit} :
    ∀ {cache c : List CachedOrbit}, hasKeptEntry b cache →
      replaceFirstFree o cache = some c → hasKeptEntry b c := by
  intro cache
  induction cache with
  | nil => intro c hk h; simp [replaceFirstFree] at h
  | cons e rest ih =>
      intro c hk h
      rw [replaceFirstFree] at h
      by_cases hfree : e.body = none
      · rw [if_pos hfree] at h
        simp only [Option.some.injEq] at h
        subst h
        obtain ⟨x, hx, hxb, hxk⟩ := hk
        rcases List.mem_cons.mp hx with hxe | hxr
        · subst hxe; rw [hfree] at hxb; simp at hxb
        · exact ⟨x, List.mem_cons_of_mem _ hxr, hxb, hxk⟩
      · rw [if_neg hfree] at h
        cases hr : replaceFirstFree o rest with
        | none => rw [hr] at h; simp at h
        | some r =>
            rw [hr] at h
            simp only [Option.map_some', Option.some.injEq] at h
            subst h
            obtain ⟨x, hx, hxb, hxk⟩ := hk
            rcases List.mem_cons.mp hx with hxe | hxr
            · subst hxe
              exact ⟨x, List.mem_cons_self _ _, hxb, hxk⟩
            · obtain ⟨y, hy, hyp⟩ := ih ⟨x, hxr, hxb, hxk⟩ hr
              exact ⟨y, List.mem_cons_of_mem _ hy, hyp⟩

/-- Drawing any body's orbit never clears another body's kept entry. -/
theorem renderOrbit_preserves_kept (om : OrbitModel) (n : ℤ) (b' : ℕ)
    (t : ℚ) {b : ℕ} {cache : List CachedOrbit} (hk : hasKeptEntry b cache) :
    hasKeptEntry b (renderOrbit om n b' t cache).2.1 := by
  rcases h : findMark b' cache with _ | ⟨c1, tr⟩
  · rcases h2 : replaceFirstFree (freshOrbit om n b' t) cache with _ | c1
    · simp only [renderOrbit, h, h2]
      obtain ⟨x, hx, hprop⟩ := hk
      exact ⟨x, List.mem_append_left _ hx, hprop⟩
    · simp only [renderOrbit, h, h2]
      exact replaceFirstFree_preserves_kept hk h2
  · simp only [renderOrbit, h]
    exact findMark_preserves_kept hk h

/-- The reclaim pass leaves every kept entry intact. -/
theorem reclaimUnused_keeps {b : ℕ} {cache : List CachedOrbit}
    (hk : hasKeptEntry b cache) :
    ∃ e ∈ reclaimUnused cache, e.body = some b ∧ e.keep = true := by
  obtain ⟨x, hx, hxb, hxk⟩ := hk
  refine ⟨x, ?_, hxb, hxk⟩
  have : (if x.keep then x else { x with body := none }) = x := by
    rw [hxk]; simp
  unfold reclaimUnused
  rw [← this]
  exact List.mem_map_of_mem _ hx

/-- Once a body has a kept entry, the rest of the frame's orbit draws
preserve it. -/
theorem foldl_renderOrbit_preserves_kept (om : OrbitModel) (n : ℤ)
    (t : ℚ) :
    ∀ (bs : List ℕ) {cache : List CachedOrbit} {b : ℕ},
      hasKeptEntry b cache →
      hasKeptEntry b
        (bs.foldl (fun c b0 => (renderOrbit om n b0 t c).2.1) cache) := by
  intro bs
  induction bs with
  | nil => intro cache b hk; exact hk
  | cons b0 rest ih =>
      intro cache b hk
      exact ih (renderOrbit_preserves_kept om n b0 t hk)

/-- Every body whose orbit is drawn this frame ends the draw sequence with
a kept cache entry. -/
theorem foldl_renderOrbit_establishes_kept (om : OrbitModel) (n : ℤ)
    (t : ℚ) :
    ∀ (bs : List ℕ) {cache : List CachedOrbit} {b : ℕ}, b ∈ bs →
      hasKeptEntry b
        (bs.foldl (fun c b0 => (renderOrbit om n b0 t c).2.1) cache) := by
  intro bs
  induction bs with
  | nil => intro cache b hb; simp at hb
  | cons b0 rest ih =>
      intro cache b hb
      rcases List.mem_cons.mp hb with hb0 | hbr
      · subst hb0
        exact foldl_renderOrbit_preserves_kept om n t rest
          (renderOrbit_kept om n b t cache)
      · exact ih hbr

/-- C8: the frame protocol — reset all keep flags, draw all of the frame's
orbits, then reclaim — never reclaims a cache entry used during the frame:
every drawn body still owns a kept entry after the reclaim pass. -/
theorem orbitCache_frame_protocol_keeps_used (om : OrbitModel) (n : ℤ)
    (t : ℚ) (bodies : List ℕ) (cache : List CachedOrbit) (b : ℕ)
    (hb : b ∈ bodies) :
    ∃ e ∈ renderFrameOrbits om n t bodies cache,
      e.body = some b ∧ e.keep = true := by
  unfold renderFrameOrbits
  exact reclaimUnused_keeps
    (foldl_renderOrbit_establishes_kept om n t bodies hb)

/-- Witness for C8: one frame drawing the orbit of body 7 starting from an
empty cache leaves a kept entry for body 7. -/
theorem orbitCache_frame_protocol_keeps_used_witness :
    7 ∈ [7] ∧
    ∃ e ∈ renderFrameOrbits
        ⟨fun _ => true, fun _ => 1, fun _ => 0, fun _ => 0,
          fun _ _ _ _ => []⟩ 100 0 [7] [],
      e.body = some 7 ∧ e.keep = true :=
  ⟨List.mem_singleton.mpr rfl,
    orbitCache_frame_protocol_keeps_used _ 100 0 [7] [] 7
      (List.mem_singleton.mpr rfl)⟩

/-- Fold invariant for the far/near ratio bound: if every remaining mesh
entry enters with a bounded ratio and every processed entry's assigned
range is bounded, then after the loop every entry's assigned range is
bounded — new buckets keep the entry's own (bounded) range, and coalesced
ranges are written only after passing the ratio check. -/
theorem dp_fold_ratios (maxRatio : ℚ) :
    ∀ (rest : List RenderListEntry) (st : DepthPartState),
      (∀ e ∈ rest, e.discSizeInPixels > 1 → e.farZ / e.nearZ ≤ maxRatio) →
      (∀ x ∈ st.done ++ st.bucket, x.discSizeInPixels > 1 →
        x.farZ / x.nearZ ≤ maxRatio) →
      ∀ x ∈ (rest.foldl (dpStep maxRatio) st).done ++
          (rest.foldl (dpStep maxRatio) st).bucket,
        x.discSizeInPixels > 1 → x.farZ / x.nearZ ≤ maxRatio := by
  intro rest
  induction rest with
  | nil => intro st _ hst x hx; exact hst x hx
  | cons e rest' ih =>
      intro st hin hst x hx
      refine ih (dpStep maxRatio st e)
        (fun y hy => hin y (List.mem_cons_of_mem _ hy)) ?_ x hx
      intro y hy hybig
      have hehead := hin e (List.mem_cons_self _ _)
      unfold dpStep at hy
      by_cases hbig : e.discSizeInPixels > 1
      · rw [if_pos hbig] at hy
        by_cases hcond : st.nDepthBuckets = 1 ∨ e.nearZ ≤ st.lastFar
        · rw [if_pos hcond] at hy
          simp only [List.append_assoc] at hy
          rcases List.mem_append.mp hy with hold | hnew
          · exact hst y (List.mem_append_left _ hold) hybig
          · rcases List.mem_append.mp hnew with hold2 | hsing
            · exact hst y (List.mem_append_right _ hold2) hybig
            · simp only [List.mem_singleton] at hsing
              subst hsing
              exact hehead hbig
        · rw [if_neg hcond] at hy
          by_cases hratio :
              min st.lastFar e.farZ / max st.lastNear e.nearZ < maxRatio
          · rw [if_pos hratio] at hy
            rcases List.mem_append.mp hy with hold | hbuck
            · exact hst y (List.mem_append_left _ hold) hybig
            · rcases List.mem_append.mp hbuck with hmap | hsing
              · obtain ⟨z, _, hz⟩ := List.mem_map.mp hmap
                subst hz
                exact le_of_lt hratio
              · simp only [List.mem_singleton] at hsing
                subst hsing
                exact le_of_lt hratio
          · rw [if_neg hratio] at hy
            simp only [List.append_assoc] at hy
            rcases List.mem_append.mp hy with hold | hnew
            · exact hst y (List.mem_append_left _ hold) hybig
            · rcases List.mem_append.mp hnew with hold2 | hsing
              · exact hst y (List.mem_append_right _ hold2) hybig
              · simp only [List.mem_singleton] at hsing
                subst hsing
                exact hehead hbig
      · rw [if_neg hbig] at hy
        simp only [← List.append_assoc] at hy
        rcases List.mem_append.mp hy with hold | hsing
        · exact hst y hold hybig
        · simp only [List.mem_singleton] at hsing
          subst hsing
          exact absurd hybig hbig

/-- C2 (amended): whenever every mesh entry enters the depth partitioner
with its own far/near ratio at most `MaxFarNearRatio` — which the cull
pass guarantees for non-convex entries by construction, but not for
convex ones — every final (possibly coalesced) bucket range satisfies
far/near ≤ `MaxFarNearRatio`. -/
theorem bucketRatios_bounded_of_input_bounded (es : List RenderListEntry)
    (h : ∀ e ∈ es, e.discSizeInPixels > 1 →
      e.farZ / e.nearZ ≤ MaxFarNearRatio) :
    bucketRatiosBounded MaxFarNearRatio
      (partitionEntries MaxFarNearRatio es) := by
  intro x hx
  exact dp_fold_ratios MaxFarNearRatio es ⟨[], [], 1, 0, 0⟩ h
    (by intro y hy; simp at hy) x hx

/-- Witness for C2 (amended): a single entry at exactly the ratio limit
keeps its bucket within the limit. -/
theorem bucketRatios_bounded_of_input_bounded_witness :
    (∀ e ∈ [(⟨-1, -2000, 2, none⟩ : RenderListEntry)],
      e.discSizeInPixels > 1 → e.farZ / e.nearZ ≤ MaxFarNearRatio) ∧
    bucketRatiosBounded MaxFarNearRatio
      (partitionEntries MaxFarNearRatio [⟨-1, -2000, 2, none⟩]) :=
  ⟨by
    intro e he _
    simp only [List.mem_singleton] at he
    subst he
    norm_num [MaxFarNearRatio],
   bucketRatios_bounded_of_input_bounded _ (by
    intro e he _
    simp only [List.mem_singleton] at he
    subst he
    norm_num [MaxFarNearRatio])⟩

/-- A pair with an unassigned left entry is always ordered. -/
theorem orderedPair_none_left {a b : RenderListEntry}
    (h : a.depthBucket = none) : orderedPair a b = true := by
  unfold orderedPair
  rw [h]

/-- A pair with an unassigned right entry is always ordered. -/
theorem orderedPair_none_right {a b : RenderListEntry}
    (h : b.depthBucket = none) : orderedPair a b = true := by
  unfold orderedPair
  rcases ha : a.depthBucket with _ | ia <;> rw [h]

/-- Characterization of `orderedPair` on two assigned entries. -/
theorem orderedPair_eq_of_some_some {a b : RenderListEntry} {ia ib : ℕ}
    (ha : a.depthBucket = some ia) (hb : b.depthBucket = some ib) :
    orderedPair a b =
      if a.discSizeInPixels > 1 ∧ b.discSizeInPixels > 1 ∧ ia < ib then
        decide (b.nearZ ≤ a.farZ)
      else true := by
  unfold orderedPair
  rw [ha, hb]

/-- A pair with a non-mesh left entry is always ordered. -/
theorem orderedPair_not_big_left {a b : RenderListEntry}
    (h : ¬ a.discSizeInPixels > 1) : orderedPair a b = true := by
  rcases ha : a.depthBucket with _ | ia
  · exact orderedPair_none_left ha
  · rcases hb : b.depthBucket with _ | ib
    · exact orderedPair_none_right hb
    · rw [orderedPair_eq_of_some_some ha hb, if_neg (fun hc => h hc.1)]

/-- A pair with a non-mesh right entry is always ordered. -/
theorem orderedPair_not_big_right {a b : RenderListEntry}
    (h : ¬ b.discSizeInPixels > 1) : orderedPair a b = true := by
  rcases ha : a.depthBucket with _ | ia
  · exact orderedPair_none_left ha
  · rcases hb : b.depthBucket with _ | ib
    · exact orderedPair_none_right hb
    · rw [orderedPair_eq_of_some_some ha hb,
        if_neg (fun hc => h hc.2.1)]

/-- A pair whose depth ranges are separated in order is ordered. -/
theorem orderedPair_of_le {a b : RenderListEntry}
    (h : b.nearZ ≤ a.farZ) : orderedPair a b = true := by
  rcases ha : a.depthBucket with _ | ia
  · exact orderedPair_none_left ha
  · rcases hb : b.depthBucket with _ | ib
    · exact orderedPair_none_right hb
    · rw [orderedPair_eq_of_some_some ha hb]
      split_ifs with hc
      · simp [h]
      · rfl

/-- A pair whose bucket indices are not increasing is vacuously
ordered. -/
theorem orderedPair_of_idx_ge {a b : RenderListEntry} {ia ib : ℕ}
    (ha : a.depthBucket = some ia) (hb : b.depthBucket = some ib)
    (h : ¬ ia < ib) : orderedPair a b = true := by
  rw [orderedPair_eq_of_some_some ha hb, if_neg (fun hc => h hc.2.2)]

/-- Appending one entry to a bucket-ordered list keeps it ordered when the
new entry is ordered against every existing entry and itself. -/
theorem bucketsOrdered_append {l : List RenderListEntry}
    {x : RenderListEntry} (hl : bucketsOrdered l)
    (h1 : ∀ a ∈ l, orderedPair a x = true)
    (h2 : ∀ a ∈ l, orderedPair x a = true)
    (h3 : orderedPair x x = true) : bucketsOrdered (l ++ [x]) := by
  intro a ha b hb
  rcases List.mem_append.mp ha with ha1 | ha2 <;>
    rcases List.mem_append.mp hb with hb1 | hb2
  · exact hl a ha1 b hb1
  · simp only [List.mem_singleton] at hb2; subst hb2; exact h1 a ha1
  · simp only [List.mem_singleton] at ha2; subst ha2; exact h2 b hb1
  · simp only [List.mem_singleton] at ha2
    simp only [List.mem_singleton] at hb2
    subst ha2; subst hb2; exact h3

/-- Fold invariant for bucket ordering on depth-separated input: if the
remaining mesh entries continue the separation chain from the most recent
mesh entry, the loop only ever takes the new-bucket branch and the final
render list is bucket-ordered. -/
theorem dp_fold_ordered (maxRatio : ℚ) :
    ∀ (rest : List RenderListEntry) (st : DepthPartState)
      (lastBig : Option RenderListEntry),
      (∀ e ∈ rest, wellFormedEntry e) →
      dpSepFrom lastBig rest →
      dpInv st lastBig →
      bucketsOrdered ((rest.foldl (dpStep maxRatio) st).done ++
        (rest.foldl (dpStep maxRatio) st).bucket) := by
  intro rest
  induction rest with
  | nil => intro st lastBig _ _ hinv; exact hinv.1
  | cons e rest' ih =>
      intro st lastBig hwf hsep hinv
      rw [List.foldl_cons]
      by_cases hbig : e.discSizeInPixels > 1
      · have hfil : bigFilter (e :: rest') = e :: bigFilter rest' := by
          unfold bigFilter
          rw [List.filter_cons_of_pos]
          simp [hbig]
        rcases lastBig with _ | l
        · -- first mesh entry of the list
          obtain ⟨hord, hn1, hnobig⟩ := hinv
          have hstep : dpStep maxRatio st e =
              ⟨st.done ++ st.bucket,
               [{ e with depthBucket := some st.nDepthBuckets }],
               st.nDepthBuckets + 1, e.nearZ, e.farZ⟩ := by
            unfold dpStep; rw [if_pos hbig, if_pos (Or.inl hn1)]
          rw [hstep]
          apply ih _ (some e)
            (fun y hy => hwf y (List.mem_cons_of_mem _ hy))
          · show List.Chain depthR e (bigFilter rest')
            have h1 : (bigFilter (e :: rest')).Chain' depthR := hsep
            rw [hfil] at h1
            exact h1
          · constructor
            · apply bucketsOrdered_append hord
              · exact fun a ha => orderedPair_not_big_left (hnobig a ha)
              · exact fun a ha => orderedPair_not_big_right (hnobig a ha)
              · exact orderedPair_of_idx_ge rfl rfl (lt_irrefl _)
            · refine ⟨hbig, rfl,
                by show 2 ≤ st.nDepthBuckets + 1; omega, ?_⟩
              intro x hx hxbig
              rcases List.mem_append.mp hx with hx1 | hx2
              · exact absurd hxbig (hnobig x hx1)
              · simp only [List.mem_singleton] at hx2
                subst hx2
                refine ⟨le_refl _, ?_⟩
                intro i hi
                have hi2 : st.nDepthBuckets = i := by simpa using hi
                subst hi2
                show st.nDepthBuckets < st.nDepthBuckets + 1
                omega
        · -- a previous mesh entry exists
          obtain ⟨hord, hlbig, hlfar, hn2, hbinv⟩ := hinv
          have hchain : List.Chain depthR l (bigFilter (e :: rest')) := hsep
          rw [hfil] at hchain
          obtain ⟨hle0, hchain2⟩ := List.chain_cons.mp hchain
          have hle : e.nearZ ≤ st.lastFar := by rw [hlfar]; exact hle0
          have hstep : dpStep maxRatio st e =
              ⟨st.done ++ st.bucket,
               [{ e with depthBucket := some st.nDepthBuckets }],
               st.nDepthBuckets + 1, e.nearZ, e.farZ⟩ := by
            unfold dpStep; rw [if_pos hbig, if_pos (Or.inr hle)]
          rw [hstep]
          apply ih _ (some e)
            (fun y hy => hwf y (List.mem_cons_of_mem _ hy))
          · show List.Chain depthR e (bigFilter rest')
            exact hchain2
          · constructor
            · apply bucketsOrdered_append hord
              · intro a ha
                by_cases habig : a.discSizeInPixels > 1
                · exact orderedPair_of_le
                    (le_trans hle (hbinv a ha habig).1)
                · exact orderedPair_not_big_left habig
              · intro a ha
                rcases hadb : a.depthBucket with _ | ia
                · exact orderedPair_none_right hadb
                · by_cases habig : a.discSizeInPixels > 1
                  · have hia : ia < st.nDepthBuckets :=
                      (hbinv a ha habig).2 ia (by simp [hadb])
                    exact orderedPair_of_idx_ge rfl hadb (by omega)
                  · exact orderedPair_not_big_right habig
              · exact orderedPair_of_idx_ge rfl rfl (lt_irrefl _)
            · refine ⟨hbig, rfl,
                by show 2 ≤ st.nDepthBuckets + 1; omega, ?_⟩
              intro x hx hxbig
              rcases List.mem_append.mp hx with hx1 | hx2
              · have hx3 := hbinv x hx1 hxbig
                refine ⟨?_, ?_⟩
                · calc e.farZ ≤ e.nearZ :=
                        (hwf e (List.mem_cons_self _ _)).1
                    _ ≤ st.lastFar := hle
                    _ ≤ x.farZ := hx3.1
                · intro i hi
                  exact lt_trans (hx3.2 i hi)
                    (by show st.nDepthBuckets < st.nDepthBuckets + 1; omega)
              · simp only [List.mem_singleton] at hx2
                subst hx2
                refine ⟨le_refl _, ?_⟩
                intro i hi
                have hi2 : st.nDepthBuckets = i := by simpa using hi
                subst hi2
                show st.nDepthBuckets < st.nDepthBuckets + 1
                omega
      · -- sub-pixel entry: swept into the current write-back range
        have hfil : bigFilter (e :: rest') = bigFilter rest' := by
          unfold bigFilter
          rw [List.filter_cons_of_neg]
          simp [hbig]
        have hstep : dpStep maxRatio st e =
            { st with bucket := st.bucket ++ [e] } := by
          unfold dpStep; rw [if_neg hbig]
        rw [hstep]
        apply ih _ lastBig (fun y hy => hwf y (List.mem_cons_of_mem _ hy))
        · rcases lastBig with _ | l
          · have h1 : (bigFilter (e :: rest')).Chain' depthR := hsep
            rw [hfil] at h1
            exact h1
          · have h1 : List.Chain depthR l (bigFilter (e :: rest')) := hsep
            rw [hfil] at h1
            exact h1
        · rcases lastBig with _ | l
          · obtain ⟨hord, hn1, hnobig⟩ := hinv
            refine ⟨?_, hn1, ?_⟩
            · rw [← List.append_assoc]
              apply bucketsOrdered_append hord
              · exact fun a _ => orderedPair_not_big_right hbig
              · exact fun a _ => orderedPair_not_big_left hbig
              · exact orderedPair_not_big_left hbig
            · intro x hx
              rw [← List.append_assoc] at hx
              rcases List.mem_append.mp hx with hx1 | hx2
              · exact hnobig x hx1
              · simp only [List.mem_singleton] at hx2
                subst hx2
                exact hbig
          · obtain ⟨hord, hlbig, hlfar, hn2, hbinv⟩ := hinv
            refine ⟨?_, hlbig, hlfar, hn2, ?_⟩
            · rw [← List.append_assoc]
              apply bucketsOrdered_append hord
              · exact fun a _ => orderedPair_not_big_right hbig
              · exact fun a _ => orderedPair_not_big_left hbig
              · exact orderedPair_not_big_left hbig
            · intro x hx hxbig
              rw [← List.append_assoc] at hx
              rcases List.mem_append.mp hx with hx1 | hx2
              · exact hbinv x hx1 hxbig
              · simp only [List.mem_singleton] at hx2
                subst hx2
                exact absurd hxbig hbig

/-- C1 (amended): whenever no two consecutive mesh entries (disc > 1px)
of the sorted render list overlap in depth — each one's near plane at or
beyond the previous one's far plane — the depth partitioner's final
buckets are pairwise non-overlapping and monotonically ordered: for
bucket indices i < j, every depth in bucket i's assigned range is nearer
to the observer than every depth in bucket j's range. -/
theorem depthBuckets_ordered_of_separated (es : List RenderListEntry)
    (hwf : ∀ e ∈ es, wellFormedEntry e) (hsep : bigSeparated es) :
    bucketsOrdered (partitionEntries MaxFarNearRatio es) := by
  have h := dp_fold_ordered MaxFarNearRatio es ⟨[], [], 1, 0, 0⟩ none hwf
    hsep ⟨by intro a ha; simp at ha, rfl, by intro x hx; simp at hx⟩
  unfold partitionEntries depthPartition
  exact h

/-- Witness for C1 (amended): two well-formed, depth-separated entries end
in ordered, disjoint buckets. -/
theorem depthBuckets_ordered_of_separated_witness :
    (∀ e ∈ [(⟨-10, -20, 2, none⟩ : RenderListEntry),
        ⟨-25, -40, 2, none⟩], wellFormedEntry e) ∧
    bigSeparated [(⟨-10, -20, 2, none⟩ : RenderListEntry),
        ⟨-25, -40, 2, none⟩] ∧
    bucketsOrdered (partitionEntries MaxFarNearRatio
      [⟨-10, -20, 2, none⟩, ⟨-25, -40, 2, none⟩]) := by
  have hwf : ∀ e ∈ [(⟨-10, -20, 2, none⟩ : RenderListEntry),
      ⟨-25, -40, 2, none⟩], wellFormedEntry e := by
    intro e he
    rcases List.mem_cons.mp he with rfl | he2
    · exact ⟨by norm_num, by norm_num⟩
    · rcases List.mem_singleton.mp he2 with rfl
      exact ⟨by norm_num, by norm_num⟩
  have hsep : bigSeparated [(⟨-10, -20, 2, none⟩ : RenderListEntry),
      ⟨-25, -40, 2, none⟩] := by
    unfold bigSeparated bigFilter
    norm_num [List.filter, depthR]
  exact ⟨hwf, hsep, depthBuckets_ordered_of_separated _ hwf hsep⟩

end Celestia
